import Mathlib

/-!
Shallow embedding of `src/assets/src/asset.rs` from the `amethyst` assets crate:
the `AssetSpec` resource key with its derived equality, hash and ordering, the
`Cache<T>` store, and the default lifecycle hooks of the `Asset` trait.
-/

/-- Modelled from the spec: `StoreId` is imported from the crate root
(`use StoreId;`), whose source is not under `src/`.  The spec only requires it
to be an opaque identifier that is equality-comparable, hashable and orderable,
so it is modelled as an opaque wrapper around a natural-number id. -/
structure StoreId where
  id : Nat
deriving DecidableEq, Repr

/-- The derived equality on `StoreId`: componentwise `==`. -/
def StoreId.beq (a b : StoreId) : Bool :=
  a.id == b.id

/-- `AssetSpec` (asset.rs lines 70-89): the specifier uniquely identifying an
asset by its extension, its name and the storage it was loaded from.
Rust's `&'static str` and `String` both become Lean `String`. -/
structure AssetSpec where
  ext : String
  name : String
  store : StoreId
deriving DecidableEq, Repr

/-- `AssetSpec::new` (asset.rs lines 82-88). -/
def AssetSpec.new (name : String) (ext : String) (store : StoreId) : AssetSpec :=
  { ext, name, store }

/-- The `#[derive(PartialEq)]` equality on `AssetSpec` (asset.rs line 70):
fields are compared with `==` in declaration order. -/
def AssetSpec.beq (a b : AssetSpec) : Bool :=
  a.ext == b.ext && a.name == b.name && StoreId.beq a.store b.store

/-- The FNV-1a offset basis (64 bit), the initial state of the `fnv` hasher
backing `FnvHashMap`. -/
def fnvOffsetBasis : Nat := 14695981039346656037

/-- The FNV-1a prime (64 bit). -/
def fnvPrime : Nat := 1099511628211

/-- One step of 64-bit FNV-1a: xor in a byte, multiply by the prime mod 2^64. -/
def fnv1aStep (h b : Nat) : Nat :=
  ((h ^^^ b) * fnvPrime) % 2 ^ 64

/-- 64-bit FNV-1a over a sequence of bytes, the hash used by `FnvHashMap`. -/
def fnv1a (bytes : List Nat) : Nat :=
  bytes.foldl fnv1aStep fnvOffsetBasis

/-- The byte stream fed to the hasher by the `#[derive(Hash)]` on `AssetSpec`
(asset.rs line 70): each field in declaration order; strings contribute their
characters followed by a `0xff` terminator, as Rust's `Hash for str` does. -/
def AssetSpec.hashBytes (a : AssetSpec) : List Nat :=
  a.ext.data.map Char.toNat ++ [255] ++ a.name.data.map Char.toNat ++ [255] ++ [a.store.id]

/-- The `#[derive(Hash)]` hash of an `AssetSpec` under the FNV-1a hasher. -/
def AssetSpec.fnvHash (a : AssetSpec) : Nat :=
  fnv1a a.hashBytes

/-- The comparator produced by `#[derive(Ord)]` for a single field: `lt` if the
left value is smaller, `eq` if both are equal, `gt` otherwise. -/
def cmpField {α : Type} [LinearOrder α] (x y : α) : Ordering :=
  if x < y then .lt else if x = y then .eq else .gt

/-- Rust's `Ord for char`: comparison by Unicode scalar value. -/
def charCmp (c₁ c₂ : Char) : Ordering :=
  cmpField c₁.toNat c₂.toNat

/-- Rust's `Ord for str`/`Ord for String`: lexicographic comparison of the
character sequences (UTF-8 byte order and scalar-value order agree). -/
def strCmpAux : List Char → List Char → Ordering
  | [], [] => .eq
  | [], _ :: _ => .lt
  | _ :: _, [] => .gt
  | c₁ :: s₁, c₂ :: s₂ => (charCmp c₁ c₂).then (strCmpAux s₁ s₂)

/-- String comparison on the underlying character list. -/
def strCmp (s₁ s₂ : String) : Ordering :=
  strCmpAux s₁.data s₂.data

/-- The derived `Ord` on `StoreId`, modelled from the spec (orderable opaque id). -/
def StoreId.cmp (a b : StoreId) : Ordering :=
  cmpField a.id b.id

/-- The `#[derive(Ord)]` comparator on `AssetSpec` (asset.rs line 70):
lexicographic over the fields in declaration order `(ext, name, store)`. -/
def AssetSpec.cmp (a b : AssetSpec) : Ordering :=
  (strCmp a.ext b.ext).then ((strCmp a.name b.name).then (StoreId.cmp a.store b.store))

/-- The state of `Cache<T>` (asset.rs lines 96-98): the `RwLock`-protected
`FnvHashMap<AssetSpec, T>`, modelled as a partial map from keys to values
(a hash map holds at most one entry per key). -/
structure Cache (T : Type) where
  map : AssetSpec → Option T

/-- `Default for Cache` (asset.rs lines 138-142): the default (empty) hash map. -/
def Cache.defaultCache (T : Type) : Cache T :=
  { map := fun _ => none }

/-- `Cache::new` (asset.rs lines 104-106): `Default::default()`. -/
def Cache.new (T : Type) : Cache T :=
  Cache.defaultCache T

/-- `Cache::insert` (asset.rs lines 111-113): `HashMap::insert` under the write
lock; stores `asset` under `spec` and returns the previous value if any. -/
def Cache.insert {T : Type} (c : Cache T) (spec : AssetSpec) (asset : T) :
    Option T × Cache T :=
  (c.map spec, { map := fun s => if s = spec then some asset else c.map s })

/-- `Cache::get` (asset.rs lines 118-120): `HashMap::get` under the read lock,
cloning the stored value (`Clone::clone` is the identity on the value). -/
def Cache.get {T : Type} (c : Cache T) (spec : AssetSpec) : Option T :=
  c.map spec

/-- `Cache::retain` (asset.rs lines 126-130): `HashMap::retain` under the write
lock.  The Rust predicate `FnMut(&AssetSpec, &mut T) -> bool` may replace the
value in place before deciding, so it is modelled as returning the (possibly
updated) value together with the keep/drop decision. -/
def Cache.retain {T : Type} (c : Cache T) (f : AssetSpec → T → T × Bool) :
    Cache T :=
  { map := fun s =>
      match c.map s with
      | none => none
      | some v =>
        let p := f s v
        if p.2 then some p.1 else none }

/-- `Cache::clear_all` (asset.rs lines 133-135): `HashMap::clear` under the
write lock. -/
def Cache.clearAll {T : Type} (_c : Cache T) : Cache T :=
  { map := fun _ => none }

/-- Default body of `Asset::cache` (asset.rs line 45): the empty block.  The
hooks receive `&Context`, so in state-passing style each hook returns the
context it leaves behind; the default leaves it untouched. -/
def Asset.defaultHookCache (Context A : Type) (context : Context)
    (_spec : AssetSpec) (_asset : A) : Context :=
  context

/-- Default body of `Asset::retrieve` (asset.rs lines 50-52): returns `None`,
leaving the context untouched. -/
def Asset.defaultHookRetrieve (Context A : Type) (context : Context)
    (_spec : AssetSpec) : Context × Option A :=
  (context, none)

/-- Default body of `Asset::clear` (asset.rs line 59): the empty block. -/
def Asset.defaultHookClear (Context : Type) (context : Context) : Context :=
  context

/-- Default body of `Asset::clear_all` (asset.rs line 62): the empty block. -/
def Asset.defaultHookClearAll (Context : Type) (context : Context) : Context :=
  context

/-- A concrete key used by the witness theorems. -/
def specA : AssetSpec :=
  ⟨"png", "a", ⟨0⟩⟩

/-- A second concrete key, differing from `specA` in the name. -/
def specB : AssetSpec :=
  ⟨"png", "b", ⟨0⟩⟩

/-- A third concrete key, differing from `specB` in name and store. -/
def specC : AssetSpec :=
  ⟨"png", "c", ⟨1⟩⟩

section OrderingLemmas

theorem ordering_then_eq_eq (o₁ o₂ : Ordering) :
    o₁.then o₂ = .eq ↔ o₁ = .eq ∧ o₂ = .eq := by
  cases o₁ <;> simp [Ordering.then]

theorem ordering_then_eq_lt (o₁ o₂ : Ordering) :
    o₁.then o₂ = .lt ↔ o₁ = .lt ∨ (o₁ = .eq ∧ o₂ = .lt) := by
  cases o₁ <;> simp [Ordering.then]

theorem ordering_then_swap (o₁ o₂ : Ordering) :
    (o₁.then o₂).swap = o₁.swap.then o₂.swap := by
  cases o₁ <;> cases o₂ <;> rfl

variable {α : Type} [LinearOrder α]

theorem cmpField_eq_iff (x y : α) : cmpField x y = .eq ↔ x = y := by
  unfold cmpField
  split_ifs with h₁ h₂
  · simp [h₁.ne]
  · simp [h₂]
  · simp [h₂]

theorem cmpField_lt_iff (x y : α) : cmpField x y = .lt ↔ x < y := by
  unfold cmpField
  split_ifs with h₁ h₂ <;> simp [h₁]

theorem cmpField_swap (x y : α) : (cmpField x y).swap = cmpField y x := by
  rcases lt_trichotomy x y with h | h | h
  · simp [cmpField, h, h.ne', lt_asymm h, Ordering.swap]
  · subst h
    simp [cmpField, lt_irrefl, Ordering.swap]
  · simp [cmpField, h, h.ne', lt_asymm h, Ordering.swap]

theorem cmpField_lt_trans {x y z : α} :
    cmpField x y = .lt → cmpField y z = .lt → cmpField x z = .lt := by
  simp only [cmpField_lt_iff]
  exact lt_trans

theorem charCmp_eq_iff (c₁ c₂ : Char) : charCmp c₁ c₂ = .eq ↔ c₁ = c₂ := by
  rw [charCmp, cmpField_eq_iff]
  constructor
  · intro h
    have h' := congrArg Char.ofNat h
    simpa [Char.ofNat_toNat] using h'
  · intro h
    rw [h]

theorem charCmp_swap (c₁ c₂ : Char) : (charCmp c₁ c₂).swap = charCmp c₂ c₁ :=
  cmpField_swap c₁.toNat c₂.toNat

theorem charCmp_lt_trans {c₁ c₂ c₃ : Char} :
    charCmp c₁ c₂ = .lt → charCmp c₂ c₃ = .lt → charCmp c₁ c₃ = .lt :=
  cmpField_lt_trans

theorem strCmpAux_eq_iff : ∀ (s₁ s₂ : List Char), strCmpAux s₁ s₂ = .eq ↔ s₁ = s₂
  | [], [] => by simp [strCmpAux]
  | [], _ :: _ => by simp [strCmpAux]
  | _ :: _, [] => by simp [strCmpAux]
  | c₁ :: s₁, c₂ :: s₂ => by
    simp [strCmpAux, ordering_then_eq_eq, charCmp_eq_iff, strCmpAux_eq_iff s₁ s₂]

theorem strCmpAux_swap : ∀ (s₁ s₂ : List Char), (strCmpAux s₁ s₂).swap = strCmpAux s₂ s₁
  | [], [] => rfl
  | [], _ :: _ => rfl
  | _ :: _, [] => rfl
  | c₁ :: s₁, c₂ :: s₂ => by
    simp [strCmpAux, ordering_then_swap, charCmp_swap, strCmpAux_swap s₁ s₂]

theorem strCmpAux_lt_trans :
    ∀ (s₁ s₂ s₃ : List Char),
      strCmpAux s₁ s₂ = .lt → strCmpAux s₂ s₃ = .lt → strCmpAux s₁ s₃ = .lt
  | [], [], _, h₁, _ => by simp [strCmpAux] at h₁
  | _ :: _, [], _, h₁, _ => by simp [strCmpAux] at h₁
  | [], _ :: _, [], _, h₂ => by simp [strCmpAux] at h₂
  | _ :: _, _ :: _, [], _, h₂ => by simp [strCmpAux] at h₂
  | [], _ :: _, _ :: _, _, _ => rfl
  | c₁ :: s₁, c₂ :: s₂, c₃ :: s₃, h₁, h₂ => by
    simp only [strCmpAux, ordering_then_eq_lt] at h₁ h₂ ⊢
    rcases h₁ with h₁ | ⟨he₁, h₁⟩ <;> rcases h₂ with h₂ | ⟨he₂, h₂⟩
    · exact Or.inl (charCmp_lt_trans h₁ h₂)
    · rw [charCmp_eq_iff] at he₂
      exact Or.inl (he₂ ▸ h₁)
    · rw [charCmp_eq_iff] at he₁
      refine Or.inl ?_
      rw [he₁]
      exact h₂
    · rw [charCmp_eq_iff] at he₁ he₂
      exact Or.inr ⟨(charCmp_eq_iff c₁ c₃).2 (he₁.trans he₂),
        strCmpAux_lt_trans s₁ s₂ s₃ h₁ h₂⟩

theorem strCmp_eq_iff (s₁ s₂ : String) : strCmp s₁ s₂ = .eq ↔ s₁ = s₂ := by
  rw [strCmp, strCmpAux_eq_iff]
  constructor
  · intro h
    cases s₁
    cases s₂
    exact congrArg String.mk h
  · intro h
    rw [h]

theorem strCmp_swap (s₁ s₂ : String) : (strCmp s₁ s₂).swap = strCmp s₂ s₁ :=
  strCmpAux_swap s₁.data s₂.data

theorem strCmp_lt_trans {s₁ s₂ s₃ : String} :
    strCmp s₁ s₂ = .lt → strCmp s₂ s₃ = .lt → strCmp s₁ s₃ = .lt :=
  strCmpAux_lt_trans s₁.data s₂.data s₃.data

end OrderingLemmas

theorem storeId_eq_iff (a b : StoreId) : a = b ↔ a.id = b.id := by
  cases a
  cases b
  simp

theorem assetSpec_eq_iff (a b : AssetSpec) :
    a = b ↔ a.ext = b.ext ∧ a.name = b.name ∧ a.store = b.store := by
  cases a
  cases b
  simp [AssetSpec.mk.injEq]

/-- C1: for all AssetSpecs a and b, the derived `==` holds iff the triples
(extension, name, storeId) are componentwise equal, and whenever `a == b`,
the FNV hashes of a and b coincide. -/
theorem assetSpec_beq_iff_and_hash (a b : AssetSpec) :
    (AssetSpec.beq a b = true ↔ (a.ext = b.ext ∧ a.name = b.name ∧ a.store = b.store)) ∧
    (AssetSpec.beq a b = true → AssetSpec.fnvHash a = AssetSpec.fnvHash b) := by
  have hiff : AssetSpec.beq a b = true ↔
      (a.ext = b.ext ∧ a.name = b.name ∧ a.store = b.store) := by
    simp [AssetSpec.beq, StoreId.beq, Bool.and_eq_true, beq_iff_eq, storeId_eq_iff, and_assoc]
  refine ⟨hiff, fun h => ?_⟩
  have hab : a = b := (assetSpec_eq_iff a b).2 (hiff.1 h)
  rw [hab]

/-- Witness for C1 at concrete keys. -/
theorem assetSpec_beq_iff_and_hash_witness :
    AssetSpec.beq specA specA = true ∧
    AssetSpec.fnvHash specA = AssetSpec.fnvHash specA :=
  ⟨by decide, (assetSpec_beq_iff_and_hash specA specA).2 (by decide)⟩

/-- C2: round-trip through the cache: immediately after `insert k v`,
`get k` returns `some v`. -/
theorem cache_insert_get_roundtrip (T : Type) (c : Cache T) (k : AssetSpec) (v : T) :
    ((c.insert k v).2).get k = some v := by
  simp [Cache.insert, Cache.get]

/-- C3: overwrite semantics: a second insert under the same key returns the
first value and `get` then yields the second; in general `insert` returns the
prior value under the key (the current `get` result). -/
theorem cache_insert_overwrite (T : Type) (c : Cache T) (k : AssetSpec) (v₁ v₂ : T) :
    ((((c.insert k v₁).2).insert k v₂).1 = some v₁) ∧
    (((((c.insert k v₁).2).insert k v₂).2).get k = some v₂) ∧
    ((c.insert k v₁).1 = c.get k) := by
  refine ⟨?_, ?_, rfl⟩ <;> simp [Cache.insert, Cache.get]

/-- C4: retain keeps exactly the entries the predicate approves (with the
value the predicate left behind) and drops the rest; in particular, from the
state {k₁ ↦ v₁, k₂ ↦ v₂} with k₁ ≠ k₂, retaining only k₁ leaves exactly
{k₁ ↦ v₁}. -/
theorem cache_retain_semantics (T : Type) (c : Cache T) (f : AssetSpec → T → T × Bool)
    (k k₁ k₂ : AssetSpec) (v₁ v₂ : T) (h : k₁ ≠ k₂) :
    ((c.retain f).get k =
      match c.get k with
      | none => none
      | some v => if (f k v).2 then some (f k v).1 else none) ∧
    (((((Cache.new T).insert k₁ v₁).2.insert k₂ v₂).2.retain
        (fun s v => (v, decide (s = k₁)))).get k =
      (if k = k₁ then some v₁ else none)) := by
  constructor
  · rfl
  · by_cases hk₂ : k = k₂ <;> by_cases hk₁ : k = k₁ <;>
      simp_all [Cache.retain, Cache.insert, Cache.get, Cache.new, Cache.defaultCache]

/-- Witness for C4 at concrete keys: after retaining only `specA`,
`get specB` is `none`. -/
theorem cache_retain_semantics_witness :
    specA ≠ specB ∧
    ((((Cache.new Nat).insert specA 1).2.insert specB 2).2.retain
        (fun s v => (v, decide (s = specA)))).get specB = none := by
  refine ⟨by decide, ?_⟩
  have h := (cache_retain_semantics Nat (Cache.new Nat) (fun _ v => (v, true))
    specB specA specB 1 2 (by decide)).2
  rw [if_neg (by decide : ¬ specB = specA)] at h
  exact h

/-- C5: after `clear_all`, `get k` is `none` for every key k. -/
theorem cache_clearAll_empty (T : Type) (c : Cache T) (k : AssetSpec) :
    (c.clearAll).get k = none :=
  rfl

/-- C6: the derived comparator on AssetSpec, lexicographic over
(extension, name, storeId), is a total order consistent with structural
equality: it reports `eq` exactly on equal values, is antisymmetric under
swapping its arguments, and is transitive on `lt`. -/
theorem assetSpec_cmp_total_order (a b c : AssetSpec) :
    (AssetSpec.cmp a b = .eq ↔ a = b) ∧
    ((AssetSpec.cmp a b).swap = AssetSpec.cmp b a) ∧
    (AssetSpec.cmp a b = .lt → AssetSpec.cmp b c = .lt → AssetSpec.cmp a c = .lt) := by
  refine ⟨?_, ?_, ?_⟩
  · simp only [AssetSpec.cmp, ordering_then_eq_eq, strCmp_eq_iff, StoreId.cmp,
      cmpField_eq_iff, assetSpec_eq_iff, storeId_eq_iff]
  · simp [AssetSpec.cmp, ordering_then_swap, strCmp_swap, cmpField_swap, StoreId.cmp]
  · intro h₁ h₂
    simp only [AssetSpec.cmp, ordering_then_eq_lt] at h₁ h₂ ⊢
    rcases h₁ with h₁ | ⟨he₁, h₁⟩ <;> rcases h₂ with h₂ | ⟨he₂, h₂⟩
    · exact Or.inl (strCmp_lt_trans h₁ h₂)
    · rw [strCmp_eq_iff] at he₂
      exact Or.inl (by rw [← he₂]; exact h₁)
    · rw [strCmp_eq_iff] at he₁
      exact Or.inl (by rw [he₁]; exact h₂)
    · rw [strCmp_eq_iff] at he₁ he₂
      refine Or.inr ⟨(strCmp_eq_iff _ _).2 (he₁.trans he₂), ?_⟩
      rcases h₁ with h₁ | ⟨hn₁, h₁⟩ <;> rcases h₂ with h₂ | ⟨hn₂, h₂⟩
      · exact Or.inl (strCmp_lt_trans h₁ h₂)
      · rw [strCmp_eq_iff] at hn₂
        exact Or.inl (by rw [← hn₂]; exact h₁)
      · rw [strCmp_eq_iff] at hn₁
        exact Or.inl (by rw [hn₁]; exact h₂)
      · rw [strCmp_eq_iff] at hn₁ hn₂
        refine Or.inr ⟨(strCmp_eq_iff _ _).2 (hn₁.trans hn₂), ?_⟩
        simp only [StoreId.cmp] at h₁ h₂ ⊢
        exact cmpField_lt_trans h₁ h₂

/-- Witness for C6 at concrete keys, via transitivity. -/
theorem assetSpec_cmp_total_order_witness :
    AssetSpec.cmp specA specC = .lt :=
  (assetSpec_cmp_total_order specA specB specC).2.2 (by decide) (by decide)

/-- C7: a freshly constructed cache (via `new` or `Default`) is empty:
`get k` returns `none` for every key. -/
theorem cache_new_empty (T : Type) (k : AssetSpec) :
    (Cache.new T).get k = none ∧ (Cache.defaultCache T).get k = none :=
  ⟨rfl, rfl⟩

/-- C8: the default Asset lifecycle hooks: `retrieve` returns `none` for every
context and key, and `cache`, `clear`, `clear_all` leave every context
unchanged. -/
theorem asset_default_hooks_noop (Context A : Type) (context : Context)
    (spec : AssetSpec) (asset : A) :
    Asset.defaultHookRetrieve Context A context spec = (context, (none : Option A)) ∧
    Asset.defaultHookCache Context A context spec asset = context ∧
    Asset.defaultHookClear Context context = context ∧
    Asset.defaultHookClearAll Context context = context :=
  ⟨rfl, rfl, rfl, rfl⟩

/-- C10: frame property of insert: inserting under k₁ leaves the entry of any
other key k₂ unchanged. -/
theorem cache_insert_frame (T : Type) (c : Cache T) (k₁ k₂ : AssetSpec) (v : T)
    (h : k₁ ≠ k₂) :
    ((c.insert k₁ v).2).get k₂ = c.get k₂ := by
  simp [Cache.insert, Cache.get, Ne.symm h]

/-- Witness for C10 at concrete keys. -/
theorem cache_insert_frame_witness :
    specA ≠ specB ∧
    ((Cache.new Nat).insert specA 7).2.get specB = (Cache.new Nat).get specB :=
  ⟨by decide, cache_insert_frame Nat (Cache.new Nat) specA specB 7 (by decide)⟩
